import Mathlib

/-!
Shallow embedding of the Warframe Farm Planner v2 scoring and planning engine
(source: the v2 app script).  Strings are modelled with Lean String plus
character-level helpers mirroring JavaScript trim / toLowerCase / includes on
the ASCII data the app uses; numbers are modelled with ℚ; the insertion-ordered
JavaScript Map and Set are modelled with association lists and duplicate-free
lists together with insertion/overwrite/delete operations that preserve
insertion order exactly as Map.set / Set.add / Set.delete do.
-/

/-- JavaScript toLowerCase, per character (ASCII range, which is all the app's data uses). -/
def lowerChar (c : Char) : Char :=
  if 'A' ≤ c ∧ c ≤ 'Z' then Char.ofNat (c.toNat + 32) else c

/-- Whitespace recognizer used by the trim model. -/
def isSpaceChar (c : Char) : Bool :=
  c = ' ' || c = '\t' || c = '\n' || c = '\r'

/-- JavaScript String.prototype.trim on the underlying character list. -/
def trimChars (l : List Char) : List Char :=
  ((l.dropWhile isSpaceChar).reverse.dropWhile isSpaceChar).reverse

/-- JavaScript String(x).trim(). -/
def trimStr (s : String) : String := ⟨trimChars s.data⟩

/-- norm from the source: String(s).trim().toLowerCase(). -/
def norm (s : String) : String := ⟨(trimChars s.data).map lowerChar⟩

/-- Does the first list start with the second one? -/
def listStarts : List Char → List Char → Bool
  | _, [] => true
  | [], _ :: _ => false
  | c :: cs, d :: ds => c == d && listStarts cs ds

/-- Does the first list contain the second as a contiguous sublist? -/
def listHasSub : List Char → List Char → Bool
  | [], sub => sub.isEmpty
  | c :: cs, sub => listStarts (c :: cs) sub || listHasSub cs sub

/-- JavaScript String.prototype.includes. -/
def includesStr (s sub : String) : Bool := listHasSub s.data sub.data

/-- JavaScript Map.set: overwrite in place if the key exists, else append at the end. -/
def mapSet {α : Type} (k : String) (v : α) : List (String × α) → List (String × α)
  | [] => [(k, v)]
  | (k', v') :: rest => if k' = k then (k, v) :: rest else (k', v') :: mapSet k v rest

/-- JavaScript Set.add: append at the end if absent. -/
def setAdd (k : String) (s : List String) : List String :=
  if k ∈ s then s else s ++ [k]

/-- JavaScript Set.delete. -/
def setDel (k : String) (s : List String) : List String := s.erase k

/-- JavaScript new Set(list). -/
def setOfList (l : List String) : List String := l.foldl (fun s k => setAdd k s) []

/-- An ExplicitDropRecord: the value stored in the EXPLICIT index. -/
structure ScoreObj where
  dropScore : ℚ
  speedScore : ℚ
  isEndless : Bool
deriving Repr, DecidableEq

/-- A NODE_META record. -/
structure NodeMeta where
  node : String
  planet : String
  planetKey : String
  missionType : String
  isEndless : Bool
  speedScore : ℚ
deriving Repr, DecidableEq

/-- The run-mode toggle: "quick" or "endless". -/
inductive RunMode where
  | quick
  | endless
deriving Repr, DecidableEq

/-- The catalog index state read by the planners: EXPLICIT, NODE_META, PLANET_DROPS. -/
structure Catalog where
  EXPLICIT : List (String × List (String × ScoreObj))
  NODE_META : List (String × NodeMeta)
  PLANET_DROPS : List (String × List String)
deriving Repr, DecidableEq

def FALLBACK_SCORE : ℚ := 2

/-- quickMultiplier from the source: clamp speedScore to [0,5], return 0.6 + 0.4*(s/5). -/
def quickMultiplier (speedScore : ℚ) : ℚ :=
  let s := max 0 (min 5 speedScore)
  6/10 + 4/10 * (s / 5)

/-- quickMissionMultiplier from the source: first-match-wins substring rules on the
normalized mission type, with a 0.92 endless penalty in the default branch. -/
def quickMissionMultiplier (missionType : String) (isEndless : Bool) : ℚ :=
  let mt := norm missionType
  if includesStr mt "capture" then 140/100
  else if includesStr mt "exterminate" then 130/100
  else if includesStr mt "rescue" then 122/100
  else if includesStr mt "sabotage" then 118/100
  else if includesStr mt "spy" then 110/100
  else if includesStr mt "disruption" then 108/100
  else if includesStr mt "activity" then 120/100
  else if includesStr mt "survival" then 90/100
  else if includesStr mt "defense" then 86/100
  else if includesStr mt "interception" then 85/100
  else if includesStr mt "excavation" then 92/100
  else if includesStr mt "mobile defense" then 82/100
  else if isEndless then 1 * (92/100) else 1

/-- getExplicitScore from the source. -/
def getExplicitScore (c : Catalog) (rKey nKey : String) : Option ScoreObj :=
  match c.EXPLICIT.lookup rKey with
  | none => none
  | some m => m.lookup nKey

/-- planetHasResourceFallback from the source. -/
def planetHasResourceFallback (c : Catalog) (rKey planetKey : String) : Bool :=
  match c.PLANET_DROPS.lookup rKey with
  | none => false
  | some s => s.contains planetKey

/-- computeEffScore from the source. -/
def computeEffScore (scoreObj : ScoreObj) (runMode : RunMode) (meta : NodeMeta) : ℚ :=
  match runMode with
  | RunMode.quick =>
      scoreObj.dropScore * quickMultiplier scoreObj.speedScore
        * quickMissionMultiplier meta.missionType meta.isEndless
  | RunMode.endless => scoreObj.dropScore

/-- nodeEligibleByRunMode from the source. -/
def nodeEligibleByRunMode (nMeta : NodeMeta) (runMode : RunMode) : Bool :=
  match runMode with
  | RunMode.endless => nMeta.isEndless
  | RunMode.quick => true

/-- The loop body of pickTopOptions: n is the current output length. -/
def pickLoop {α : Type} (score : α → ℚ) (best : ℚ) (maxOptions : ℕ) :
    ℕ → List α → List α
  | _, [] => []
  | n, it :: rest =>
    if maxOptions ≤ n then []
    else if best * (9/10) ≤ score it then it :: pickLoop score best maxOptions (n + 1) rest
    else pickLoop score best maxOptions n rest

/-- pickTopOptions from the source, parameterized by the score projection of the entries. -/
def pickTopOptions {α : Type} (score : α → ℚ) (scoredList : List α) (maxOptions : ℕ) :
    List α :=
  match scoredList with
  | [] => []
  | first :: _ => pickLoop score (score first) maxOptions 0 scoredList

/-- A scored candidate inside planMaximizeEfficiency. -/
structure ScoredEntry where
  nodeKey : String
  score : ℚ
deriving Repr, DecidableEq

/-- An option of a planMaximizeEfficiency result. -/
structure EffOption where
  nodeKey : String
  score : ℚ
  meta : Option NodeMeta
deriving Repr, DecidableEq

/-- A per-resource result of planMaximizeEfficiency. -/
structure EffResult where
  resource : String
  options : List EffOption
  note : Option String
deriving Repr, DecidableEq

/-- The candidate-scoring loop of planMaximizeEfficiency over the explicit map entries. -/
def effCandidates (c : Catalog) (runMode : RunMode) (explicitMap : List (String × ScoreObj)) :
    List ScoredEntry :=
  explicitMap.filterMap fun p =>
    match c.NODE_META.lookup p.1 with
    | none => none
    | some meta =>
      if nodeEligibleByRunMode meta runMode then
        some ⟨p.1, computeEffScore p.2 runMode meta⟩
      else none

/-- The body of planMaximizeEfficiency for a single selected resource. -/
def effResultFor (c : Catalog) (runMode : RunMode) (rName : String) : EffResult :=
  let rKey := norm rName
  match c.EXPLICIT.lookup rKey with
  | none => ⟨rName, [], some "No explicit data for this resource."⟩
  | some explicitMap =>
    if explicitMap = [] then ⟨rName, [], some "No explicit data for this resource."⟩
    else
      let scored := effCandidates c runMode explicitMap
      let sorted := scored.mergeSort (fun a b => decide (b.score ≤ a.score))
      let options := (pickTopOptions (fun e => e.score) sorted 3).map
        (fun o => ⟨o.nodeKey, o.score, c.NODE_META.lookup o.nodeKey⟩)
      ⟨rName, options, none⟩

/-- planMaximizeEfficiency from the source. -/
def planMaximizeEfficiency (c : Catalog) (selectedResources : List String)
    (runMode : RunMode) : List EffResult :=
  selectedResources.map (effResultFor c runMode)

/-- A coverage entry of a minimize-stops candidate. -/
structure CoveredEntry where
  resource : String
  via : String
  score : ℚ
deriving Repr, DecidableEq

/-- A scored candidate inside planMinimizeStops. -/
structure StopCandidate where
  nodeKey : String
  score : ℚ
  meta : NodeMeta
  covered : List CoveredEntry
deriving Repr, DecidableEq

/-- One stop of the minimize-stops route. -/
structure Step where
  options : List StopCandidate
deriving Repr, DecidableEq

/-- The result of planMinimizeStops. -/
structure StopsPlan where
  route : List Step
  missing : List String
deriving Repr, DecidableEq

/-- The rDisplay map of planMinimizeStops: new Map(selected.map(r =&gt; [norm r, r])). -/
def buildDisplay (selectedResources : List String) : List (String × String) :=
  selectedResources.foldl (fun m r => mapSet (norm r) r m) []

/-- The candidate-node pool of planMinimizeStops: union of explicit nodes of the
remaining resources, in insertion order. -/
def candidateNodesOf (c : Catalog) (remaining : List String) : List String :=
  remaining.foldl (fun acc rKey =>
    match c.EXPLICIT.lookup rKey with
    | none => acc
    | some m => m.foldl (fun acc2 p => setAdd p.1 acc2) acc) []

/-- The per-resource body of the coverage loop of planMinimizeStops: the explicit
record is consulted first (and its continue skips the planet fallback), the planet
fallback only in its absence. -/
def coverStep (c : Catalog) (runMode : RunMode) (rDisplay : List (String × String))
    (meta : NodeMeta) (nKey : String) (acc : ℚ × List CoveredEntry) (rKey : String) :
    ℚ × List CoveredEntry :=
  match getExplicitScore c rKey nKey with
  | some sObj =>
    let eff := computeEffScore sObj runMode meta
    if 0 < eff then
      (acc.1 + eff, acc.2 ++ [⟨(rDisplay.lookup rKey).getD rKey, "explicit", eff⟩])
    else acc
  | none =>
    if planetHasResourceFallback c rKey meta.planetKey then
      let fb : ℚ :=
        match runMode with
        | RunMode.quick =>
            FALLBACK_SCORE * quickMultiplier meta.speedScore
              * quickMissionMultiplier meta.missionType meta.isEndless
        | RunMode.endless => FALLBACK_SCORE
      (acc.1 + fb, acc.2 ++ [⟨(rDisplay.lookup rKey).getD rKey, "planet", fb⟩])
    else acc

/-- The full coverage loop of planMinimizeStops for one candidate node. -/
def nodeCoverage (c : Catalog) (runMode : RunMode) (rDisplay : List (String × String))
    (meta : NodeMeta) (nKey : String) (remaining : List String) :
    ℚ × List CoveredEntry :=
  remaining.foldl (coverStep c runMode rDisplay meta nKey) (0, [])

/-- The candidate scoring pass of one iteration of planMinimizeStops. -/
def stopScored (c : Catalog) (runMode : RunMode) (rDisplay : List (String × String))
    (candidates remaining : List String) : List StopCandidate :=
  candidates.filterMap fun nKey =>
    match c.NODE_META.lookup nKey with
    | none => none
    | some meta =>
      let cov := nodeCoverage c runMode rDisplay meta nKey remaining
      if cov.2 = [] then none
      else some ⟨nKey, cov.1, meta, cov.2⟩

/-- The greedy while-loop of planMinimizeStops; the fuel argument is the number of
stops still allowed (maxStops minus the route length so far). -/
def stopsLoop (c : Catalog) (runMode : RunMode) (rDisplay : List (String × String))
    (candidates : List String) : ℕ → List String → List Step × List String
  | 0, remaining => ([], remaining)
  | Nat.succ fuel, remaining =>
    if remaining = [] then ([], remaining)
    else
      let scored := stopScored c runMode rDisplay candidates remaining
      let sorted := scored.mergeSort (fun a b => decide (b.score ≤ a.score))
      let top := pickTopOptions (fun x => x.score) sorted 3
      match top with
      | [] => ([], remaining)
      | best :: _ =>
        let remaining2 := best.covered.foldl (fun s cov => setDel (norm cov.resource) s) remaining
        let res := stopsLoop c runMode rDisplay candidates fuel remaining2
        (⟨top⟩ :: res.1, res.2)

/-- planMinimizeStops from the source, with maxStops = 6. -/
def planMinimizeStops (c : Catalog) (selectedResources : List String)
    (runMode : RunMode) : StopsPlan :=
  let remaining := setOfList (selectedResources.map norm)
  let rDisplay := buildDisplay selectedResources
  let candidateNodes := candidateNodesOf c remaining
  let candidates := candidateNodes.filter fun nKey =>
    match c.NODE_META.lookup nKey with
    | none => false
    | some meta => nodeEligibleByRunMode meta runMode
  let res := stopsLoop c runMode rDisplay candidates 6 remaining
  ⟨res.1, res.2.map (fun rKey => (rDisplay.lookup rKey).getD rKey)⟩

/-- A raw master row as handed to the indexing loop of loadData (the CSV columns
already resolved through the casing aliases, numbers already coerced). -/
structure RawRow where
  resource : String
  node : String
  planet : String
  missionType : String
  isEndless : String
  speedScore : ℚ
  dropScore : ℚ
deriving Repr, DecidableEq

/-- A normalized MASTER_ROWS record. -/
structure MasterRow where
  resource : String
  node : String
  planet : String
  missionType : String
  isEndless : Bool
  speedScore : ℚ
  dropScore : ℚ
  rKey : String
  nKey : String
  pKey : String
deriving Repr, DecidableEq

/-- The master-side index state built by loadData. -/
structure BuildState where
  MASTER_ROWS : List MasterRow
  NODE_META : List (String × NodeMeta)
  EXPLICIT : List (String × List (String × ScoreObj))
deriving Repr, DecidableEq

/-- One iteration of the master-row loop of loadData: rows with an empty trimmed
resource or node are skipped; the first row for a node sets its metadata; every
surviving row overwrites the (resource, node) explicit record. -/
def rowStep (st : BuildState) (row : RawRow) : BuildState :=
  let resource := trimStr row.resource
  let node := trimStr row.node
  let planetName := trimStr row.planet
  let missionType := trimStr row.missionType
  let isEndless := norm row.isEndless = "true"
  let speedScore := row.speedScore
  let dropScore := row.dropScore
  if resource = "" ∨ node = "" then st
  else
    let rKey := norm resource
    let nKey := norm node
    let masterRows := st.MASTER_ROWS ++
      [⟨resource, node, planetName, missionType, isEndless, speedScore, dropScore,
        rKey, nKey, norm planetName⟩]
    let nodeMeta :=
      if (st.NODE_META.lookup nKey).isSome then st.NODE_META
      else mapSet nKey
        ⟨node, planetName, norm planetName,
          (if missionType = "" then "Other" else missionType), isEndless, speedScore⟩
        st.NODE_META
    let explicitIdx :=
      mapSet rKey
        (mapSet nKey ⟨dropScore, speedScore, isEndless⟩ ((st.EXPLICIT.lookup rKey).getD []))
        st.EXPLICIT
  ⟨masterRows, nodeMeta, explicitIdx⟩

/-- The master-row indexing loop of loadData over all parsed master rows. -/
def buildMaster (master : List RawRow) : BuildState :=
  master.foldl rowStep ⟨[], [], []⟩

/-- The uniqueResources map of loadData: rKey to first display name, from MASTER_ROWS. -/
def uniqueResourcesOf (rows : List MasterRow) : List (String × String) :=
  rows.foldl (fun m r => if (m.lookup r.rKey).isSome then m else mapSet r.rKey r.resource m) []

/-- The RESOURCES list of loadData: unique display names, sorted. -/
def buildRESOURCES (rows : List MasterRow) : List String :=
  ((uniqueResourcesOf rows).map Prod.snd).mergeSort (fun a b => decide (a ≤ b))

/-- planMaximizeEfficiency viewed as acting on the catalog state: it returns its
results and the catalog state after the call (the source mutates nothing). -/
def planMaximizeEfficiencyS (c : Catalog) (selectedResources : List String)
    (runMode : RunMode) : List EffResult × Catalog :=
  (planMaximizeEfficiency c selectedResources runMode, c)

/-- planMinimizeStops viewed as acting on the catalog state: it returns its
result and the catalog state after the call (the source mutates nothing). -/
def planMinimizeStopsS (c : Catalog) (selectedResources : List String)
    (runMode : RunMode) : StopsPlan × Catalog :=
  (planMinimizeStops c selectedResources runMode, c)

/-- Whether any of the mission-type substring rules of quickMissionMultiplier matches. -/
def missionRuleMatched (missionType : String) : Bool :=
  let mt := norm missionType
  includesStr mt "capture" || includesStr mt "exterminate" || includesStr mt "rescue" ||
  includesStr mt "sabotage" || includesStr mt "spy" || includesStr mt "disruption" ||
  includesStr mt "activity" || includesStr mt "survival" || includesStr mt "defense" ||
  includesStr mt "interception" || includesStr mt "excavation" ||
  includesStr mt "mobile defense"

/-- Modelled from the spec's words: 0.6 + 0.4 times (clamp(s, 0, 5) / 5), to be
compared with quickMultiplier from the source. -/
def specSpeedMultiplier (s : ℚ) : ℚ :=
  6/10 + 4/10 * (min (max s 0) 5 / 5)

-- sanity checks of the string model
example : norm "  Mobile Defense " = "mobile defense" := by decide
example : includesStr "mobile defense" "defense" = true := by decide
example : includesStr "mobile defense" "capture" = false := by decide

lemma quickMultiplier_eq (t : ℚ) :
    quickMultiplier t = 6/10 + 4/10 * (max 0 (min 5 t) / 5) := rfl

lemma clamp_flip (t : ℚ) : max 0 (min 5 t) = min (max t 0) 5 := by
  simp only [min_def, max_def]
  split_ifs <;> linarith

/-- C7: quickMultiplier equals 0.6 + 0.4 * (clamp(s,0,5)/5) (the spec's formula),
is monotonically non-decreasing over [0,5], and its value always lies in
the interval [0.6, 1.0]. -/
theorem C7_quickMultiplier_spec (s s₁ s₂ : ℚ) :
    quickMultiplier s = specSpeedMultiplier s ∧
    (6/10 ≤ quickMultiplier s ∧ quickMultiplier s ≤ 1) ∧
    (0 ≤ s₁ → s₁ ≤ s₂ → s₂ ≤ 5 → quickMultiplier s₁ ≤ quickMultiplier s₂) := by
  refine ⟨?_, ?_, ?_⟩
  · rw [quickMultiplier_eq, specSpeedMultiplier, clamp_flip]
  · rw [quickMultiplier_eq]
    have h0 : (0:ℚ) ≤ max 0 (min 5 s) := le_max_left _ _
    have h5 : max 0 (min 5 s) ≤ 5 := max_le (by norm_num) (min_le_left _ _)
    constructor <;> nlinarith
  · intro _ h12 _
    rw [quickMultiplier_eq, quickMultiplier_eq]
    have hmono : max 0 (min 5 s₁) ≤ max 0 (min 5 s₂) :=
      max_le_max (le_refl 0) (min_le_min (le_refl 5) h12)
    nlinarith

/-- C7 witness: the theorem applied at s = 3, s₁ = 1, s₂ = 2. -/
theorem C7_quickMultiplier_spec_witness :
    quickMultiplier 3 = specSpeedMultiplier 3 ∧ quickMultiplier 1 ≤ quickMultiplier 2 :=
  ⟨(C7_quickMultiplier_spec 3 1 2).1,
   (C7_quickMultiplier_spec 3 1 2).2.2 (by norm_num) (by norm_num) (by norm_num)⟩

/-- C8: both planners leave the catalog index state unchanged, and calling either
planner a second time on the post-call state yields identical output. -/
theorem C8_planners_pure (c : Catalog) (sel : List String) (runMode : RunMode) :
    (planMaximizeEfficiencyS c sel runMode).2 = c ∧
    (planMinimizeStopsS c sel runMode).2 = c ∧
    (planMaximizeEfficiencyS (planMaximizeEfficiencyS c sel runMode).2 sel runMode).1
      = (planMaximizeEfficiencyS c sel runMode).1 ∧
    (planMinimizeStopsS (planMinimizeStopsS c sel runMode).2 sel runMode).1
      = (planMinimizeStopsS c sel runMode).1 :=
  ⟨rfl, rfl, rfl, rfl⟩

/-- C1 counterexample: for missionType "Capture", the endless flag changes nothing
(the capture rule returns 1.40 before the endless penalty is reached), so
quickMissionMultiplier "Capture" true is not 0.92 times the false variant. -/
theorem C1_cex :
    quickMissionMultiplier "Capture" true ≠
      92/100 * quickMissionMultiplier "Capture" false := by
  have h1 : quickMissionMultiplier "Capture" true = 140/100 := rfl
  have h2 : quickMissionMultiplier "Capture" false = 140/100 := rfl
  rw [h1, h2]
  norm_num

/-- C1 amended: the 0.92 endless penalty is applied only in the default branch,
i.e. when no mission-type substring rule matches; whenever a rule matches, the
endless flag does not change the multiplier. -/
theorem C1_endless_penalty_default_only (mt : String) :
    quickMissionMultiplier mt true =
      (if missionRuleMatched mt then 1 else 92/100) * quickMissionMultiplier mt false := by
  simp only [quickMissionMultiplier, missionRuleMatched]
  by_cases h1 : includesStr (norm mt) "capture" = true
  · simp [h1]
  rw [Bool.not_eq_true] at h1
  by_cases h2 : includesStr (norm mt) "exterminate" = true
  · simp [h1, h2]
  rw [Bool.not_eq_true] at h2
  by_cases h3 : includesStr (norm mt) "rescue" = true
  · simp [h1, h2, h3]
  rw [Bool.not_eq_true] at h3
  by_cases h4 : includesStr (norm mt) "sabotage" = true
  · simp [h1, h2, h3, h4]
  rw [Bool.not_eq_true] at h4
  by_cases h5 : includesStr (norm mt) "spy" = true
  · simp [h1, h2, h3, h4, h5]
  rw [Bool.not_eq_true] at h5
  by_cases h6 : includesStr (norm mt) "disruption" = true
  · simp [h1, h2, h3, h4, h5, h6]
  rw [Bool.not_eq_true] at h6
  by_cases h7 : includesStr (norm mt) "activity" = true
  · simp [h1, h2, h3, h4, h5, h6, h7]
  rw [Bool.not_eq_true] at h7
  by_cases h8 : includesStr (norm mt) "survival" = true
  · simp [h1, h2, h3, h4, h5, h6, h7, h8]
  rw [Bool.not_eq_true] at h8
  by_cases h9 : includesStr (norm mt) "defense" = true
  · simp [h1, h2, h3, h4, h5, h6, h7, h8, h9]
  rw [Bool.not_eq_true] at h9
  by_cases h10 : includesStr (norm mt) "interception" = true
  · simp [h1, h2, h3, h4, h5, h6, h7, h8, h9, h10]
  rw [Bool.not_eq_true] at h10
  by_cases h11 : includesStr (norm mt) "excavation" = true
  · simp [h1, h2, h3, h4, h5, h6, h7, h8, h9, h10, h11]
  rw [Bool.not_eq_true] at h11
  by_cases h12 : includesStr (norm mt) "mobile defense" = true
  · simp [h1, h2, h3, h4, h5, h6, h7, h8, h9, h10, h11, h12]
  rw [Bool.not_eq_true] at h12
  simp [h1, h2, h3, h4, h5, h6, h7, h8, h9, h10, h11, h12]

/-- C9: a master row whose trimmed resource or node is empty is silently skipped by
the indexing loop of loadData: the built state (MASTER_ROWS, NODE_META, EXPLICIT)
and the derived unique resource list are identical to the build without that row,
and the build is a total function (it never fails). -/
theorem C9_skip_bad_rows (pre post : List RawRow) (row : RawRow)
    (h : trimStr row.resource = "" ∨ trimStr row.node = "") :
    buildMaster (pre ++ row :: post) = buildMaster (pre ++ post) ∧
    buildRESOURCES (buildMaster (pre ++ row :: post)).MASTER_ROWS
      = buildRESOURCES (buildMaster (pre ++ post)).MASTER_ROWS := by
  have hstep : ∀ st, rowStep st row = st := by
    intro st
    simp only [rowStep]
    rw [if_pos h]
  have hmain : buildMaster (pre ++ row :: post) = buildMaster (pre ++ post) := by
    unfold buildMaster
    rw [List.foldl_append, List.foldl_append, List.foldl_cons, hstep]
  exact ⟨hmain, by rw [hmain]⟩

/-- C9 witness: a row with a whitespace-only resource field leaves the build of an
otherwise empty dataset untouched. -/
theorem C9_skip_bad_rows_witness :
    buildMaster [⟨"   ", "Node", "Earth", "Survival", "true", 3, 5⟩] = buildMaster [] :=
  (C9_skip_bad_rows [] [] ⟨"   ", "Node", "Earth", "Survival", "true", 3, 5⟩
    (Or.inl (by decide))).1

lemma listStarts_iff (p : List Char) : ∀ l, listStarts l p = true ↔ ∃ t, l = p ++ t := by
  induction p with
  | nil =>
    intro l
    cases l <;> simp [listStarts]
  | cons d ds ih =>
    intro l
    cases l with
    | nil => simp [listStarts]
    | cons c cs =>
      simp only [listStarts, Bool.and_eq_true, beq_iff_eq, ih, List.cons_append]
      constructor
      · rintro ⟨rfl, t, rfl⟩
        exact ⟨t, rfl⟩
      · rintro ⟨t, ht⟩
        injection ht with h1 h2
        exact ⟨h1, t, h2⟩

lemma listHasSub_iff (p : List Char) :
    ∀ l, listHasSub l p = true ↔ ∃ pre t, l = pre ++ (p ++ t) := by
  intro l
  induction l with
  | nil =>
    simp only [listHasSub, List.isEmpty_iff]
    constructor
    · rintro rfl
      exact ⟨[], [], rfl⟩
    · rintro ⟨pre, t, h⟩
      obtain ⟨-, h2⟩ := List.append_eq_nil.mp h.symm
      exact (List.append_eq_nil.mp h2).1
  | cons c cs ih =>
    simp only [listHasSub, Bool.or_eq_true, listStarts_iff, ih]
    constructor
    · rintro (⟨t, ht⟩ | ⟨pre, t, rfl⟩)
      · exact ⟨[], t, by simpa using ht⟩
      · exact ⟨c :: pre, t, rfl⟩
    · rintro ⟨pre, t, h⟩
      cases pre with
      | nil => exact Or.inl ⟨t, by simpa using h⟩
      | cons x xs =>
        injection h with h1 h2
        exact Or.inr ⟨xs, t, h2⟩

lemma includesStr_trans {s a b : String} (h1 : includesStr s a = true)
    (h2 : includesStr a b = true) : includesStr s b = true := by
  unfold includesStr at h1 h2 ⊢
  rw [listHasSub_iff] at h1 h2 ⊢
  obtain ⟨pre, t, h1'⟩ := h1
  obtain ⟨pre', t', h2'⟩ := h2
  refine ⟨pre ++ pre', t' ++ t, ?_⟩
  rw [h1', h2']
  simp [List.append_assoc]

lemma qmm_ne_82 (mt : String) (e : Bool) : quickMissionMultiplier mt e ≠ 82/100 := by
  simp only [quickMissionMultiplier]
  by_cases h1 : includesStr (norm mt) "capture" = true
  · simp [h1] ; norm_num
  by_cases h2 : includesStr (norm mt) "exterminate" = true
  · simp [h1, h2] ; norm_num
  by_cases h3 : includesStr (norm mt) "rescue" = true
  · simp [h1, h2, h3] ; norm_num
  by_cases h4 : includesStr (norm mt) "sabotage" = true
  · simp [h1, h2, h3, h4] ; norm_num
  by_cases h5 : includesStr (norm mt) "spy" = true
  · simp [h1, h2, h3, h4, h5] ; norm_num
  by_cases h6 : includesStr (norm mt) "disruption" = true
  · simp [h1, h2, h3, h4, h5, h6] ; norm_num
  by_cases h7 : includesStr (norm mt) "activity" = true
  · simp [h1, h2, h3, h4, h5, h6, h7] ; norm_num
  by_cases h8 : includesStr (norm mt) "survival" = true
  · simp [h1, h2, h3, h4, h5, h6, h7, h8] ; norm_num
  by_cases h9 : includesStr (norm mt) "defense" = true
  · simp [h1, h2, h3, h4, h5, h6, h7, h8, h9] ; norm_num
  by_cases h10 : includesStr (norm mt) "interception" = true
  · simp [h1, h2, h3, h4, h5, h6, h7, h8, h9, h10] ; norm_num
  by_cases h11 : includesStr (norm mt) "excavation" = true
  · simp [h1, h2, h3, h4, h5, h6, h7, h8, h9, h10, h11] ; norm_num
  by_cases h12 : includesStr (norm mt) "mobile defense" = true
  · exact absurd (includesStr_trans h12 (by decide)) h9
  simp [h1, h2, h3, h4, h5, h6, h7, h8, h9, h10, h11, h12]
  cases e <;> simp <;> norm_num

/-- C10 counterexample: "Capture Mobile Defense" contains the substring
"mobile defense" yet quickMissionMultiplier returns 1.40 (the capture rule),
not 0.86, so the claim quantified over every such string fails. -/
theorem C10_cex :
    includesStr (norm "Capture Mobile Defense") "mobile defense" = true ∧
    quickMissionMultiplier "Capture Mobile Defense" false ≠ 86/100 := by
  constructor
  · decide
  · have h : quickMissionMultiplier "Capture Mobile Defense" false = 140/100 := rfl
    rw [h]
    norm_num

/-- C10 amended: a mission type containing "mobile defense" that matches none of
the earlier substring rules (capture, exterminate, rescue, sabotage, spy,
disruption, activity, survival) gets 0.86 via the earlier "defense" rule, and the
0.82 mobile-defense branch is unreachable: no input ever yields 0.82. -/
theorem C10_mobile_defense_shadowed (mt : String) (e : Bool) :
    (includesStr (norm mt) "mobile defense" = true →
     includesStr (norm mt) "capture" = false →
     includesStr (norm mt) "exterminate" = false →
     includesStr (norm mt) "rescue" = false →
     includesStr (norm mt) "sabotage" = false →
     includesStr (norm mt) "spy" = false →
     includesStr (norm mt) "disruption" = false →
     includesStr (norm mt) "activity" = false →
     includesStr (norm mt) "survival" = false →
     quickMissionMultiplier mt e = 86/100) ∧
    quickMissionMultiplier mt e ≠ 82/100 := by
  refine ⟨?_, qmm_ne_82 mt e⟩
  intro hmd h1 h2 h3 h4 h5 h6 h7 h8
  have hdef : includesStr (norm mt) "defense" = true :=
    includesStr_trans hmd (by decide)
  simp [quickMissionMultiplier, h1, h2, h3, h4, h5, h6, h7, h8, hdef]

/-- C10 witness: the amended theorem applied at mission type "Mobile Defense". -/
theorem C10_mobile_defense_shadowed_witness :
    quickMissionMultiplier "Mobile Defense" false = 86/100 ∧
    quickMissionMultiplier "Mobile Defense" false ≠ 82/100 :=
  ⟨(C10_mobile_defense_shadowed "Mobile Defense" false).1 (by decide) (by decide)
      (by decide) (by decide) (by decide) (by decide) (by decide) (by decide) (by decide),
   (C10_mobile_defense_shadowed "Mobile Defense" false).2⟩

lemma pickLoop_length {α : Type} (score : α → ℚ) (best : ℚ) (maxOptions : ℕ) :
    ∀ l n, (pickLoop score best maxOptions n l).length ≤ maxOptions - n := by
  intro l
  induction l with
  | nil => intro n; simp [pickLoop]
  | cons it rest ih =>
    intro n
    simp only [pickLoop]
    split_ifs with h1 h2
    · simp
    · have := ih (n + 1)
      simp only [List.length_cons]
      omega
    · exact ih n

lemma pickLoop_sublist {α : Type} (score : α → ℚ) (best : ℚ) (maxOptions : ℕ) :
    ∀ l n, (pickLoop score best maxOptions n l).Sublist l := by
  intro l
  induction l with
  | nil => intro n; simp [pickLoop]
  | cons it rest ih =>
    intro n
    simp only [pickLoop]
    split_ifs
    · exact List.nil_sublist _
    · exact (ih (n + 1)).cons₂ it
    · exact (ih n).cons it

lemma pickLoop_score_ge {α : Type} (score : α → ℚ) (best : ℚ) (maxOptions : ℕ) :
    ∀ l n x, x ∈ pickLoop score best maxOptions n l → best * (9/10) ≤ score x := by
  intro l
  induction l with
  | nil => intro n x hx; simp [pickLoop] at hx
  | cons it rest ih =>
    intro n x hx
    simp only [pickLoop] at hx
    split_ifs at hx with h1 h2
    · simp at hx
    · rcases List.mem_cons.mp hx with rfl | hx'
      · exact h2
      · exact ih (n + 1) x hx'
    · exact ih n x hx

lemma pickTopOptions_sublist {α : Type} (score : α → ℚ) (l : List α) (maxOptions : ℕ) :
    (pickTopOptions score l maxOptions).Sublist l := by
  cases l with
  | nil => simp [pickTopOptions]
  | cons fst rest => exact pickLoop_sublist score (score fst) maxOptions (fst :: rest) 0

lemma pickTopOptions_mem {α : Type} {score : α → ℚ} {l : List α} {maxOptions : ℕ} {x : α}
    (hx : x ∈ pickTopOptions score l maxOptions) : x ∈ l :=
  (pickTopOptions_sublist score l maxOptions).mem hx

/-- C2 counterexample: on the descending singleton list with score -1 and
maxOptions = 1, pickTopOptions returns the empty list even though the input is
non-empty: a negative best score fails the 90 percent rule against itself. -/
theorem C2_cex :
    List.Pairwise (fun a b : ScoredEntry => b.score ≤ a.score) [⟨"n", -1⟩] ∧
    1 ≤ 1 ∧ ([(⟨"n", -1⟩ : ScoredEntry)] ≠ []) ∧
    pickTopOptions (fun e : ScoredEntry => e.score) [⟨"n", -1⟩] 1 = [] := by
  refine ⟨by simp, le_refl 1, by simp, ?_⟩
  simp only [pickTopOptions, pickLoop]
  rw [if_neg (by omega), if_neg (by norm_num)]

/-- C2 amended: for a descending input and maxOptions at least 1, pickTopOptions
returns at most maxOptions items, a sublist of the input (preserving its order),
every item scoring at least 0.9 times the first input item's score, and is
non-empty whenever the input is non-empty with a non-negative best score. -/
theorem C2_pickTopOptions_spec (l : List ScoredEntry) (maxOptions : ℕ)
    (hsorted : List.Pairwise (fun a b : ScoredEntry => b.score ≤ a.score) l)
    (hmax : 1 ≤ maxOptions) :
    (pickTopOptions (fun e : ScoredEntry => e.score) l maxOptions).length ≤ maxOptions ∧
    (pickTopOptions (fun e : ScoredEntry => e.score) l maxOptions).Sublist l ∧
    (∀ fst rest, l = fst :: rest →
      (∀ x ∈ pickTopOptions (fun e : ScoredEntry => e.score) l maxOptions,
        fst.score * (9/10) ≤ x.score) ∧
      (0 ≤ fst.score →
        pickTopOptions (fun e : ScoredEntry => e.score) l maxOptions ≠ [])) := by
  refine ⟨?_, pickTopOptions_sublist _ l maxOptions, ?_⟩
  · cases l with
    | nil => simp [pickTopOptions]
    | cons fst rest =>
      have h := pickLoop_length (fun e : ScoredEntry => e.score) fst.score maxOptions
        (fst :: rest) 0
      simpa [pickTopOptions] using h.trans (Nat.sub_le _ _)
  · rintro fst rest rfl
    constructor
    · intro x hx
      exact pickLoop_score_ge (fun e : ScoredEntry => e.score) fst.score maxOptions
        (fst :: rest) 0 x (by simpa [pickTopOptions] using hx)
    · intro hpos
      simp only [pickTopOptions, pickLoop]
      rw [if_neg (by omega), if_pos (by nlinarith)]
      simp

/-- C2 witness: the amended theorem applied to the two-entry descending list with
scores 10 and 9 and maxOptions = 3. -/
theorem C2_pickTopOptions_spec_witness :
    (pickTopOptions (fun e : ScoredEntry => e.score) [⟨"a", 10⟩, ⟨"b", 9⟩] 3).length ≤ 3 ∧
    pickTopOptions (fun e : ScoredEntry => e.score) [⟨"a", 10⟩, ⟨"b", 9⟩] 3 ≠ [] := by
  have h := C2_pickTopOptions_spec [⟨"a", 10⟩, ⟨"b", 9⟩] 3
    (by norm_num [List.pairwise_cons]) (by norm_num)
  exact ⟨h.1, (h.2.2 ⟨"a", 10⟩ [⟨"b", 9⟩] rfl).2 (by norm_num)⟩

lemma foldl_erase_of_fixed {β : Type} (f : β → String → β) (rKey : String)
    (hid : ∀ acc, f acc rKey = acc) :
    ∀ (l : List String) (acc : β), l.foldl f acc = (l.erase rKey).foldl f acc := by
  intro l
  induction l with
  | nil => intro acc; rw [List.erase_nil]
  | cons x t ih =>
    intro acc
    rw [List.foldl_cons, List.erase_cons]
    by_cases hx : x = rKey
    · subst hx
      rw [hid]
      simp
    · rw [if_neg (by simpa using hx), List.foldl_cons, ih]

/-- C3: in the coverage loop of planMinimizeStops, an ExplicitDropRecord always
takes precedence for its (resource, node) pair: with an explicit record present —
even when the node's planet is in the resource's fallback set — the coverage step
adds exactly the explicit effective score with via "explicit" when that score is
strictly positive, and otherwise leaves the accumulator untouched (the planet
fallback is never consulted); with a non-positive explicit effective score the
resource contributes nothing, so erasing it from the remaining set leaves the
node's coverage unchanged. -/
theorem C3_explicit_precedence (c : Catalog) (runMode : RunMode)
    (rDisplay : List (String × String)) (meta : NodeMeta) (nKey rKey : String)
    (sObj : ScoreObj) (hex : getExplicitScore c rKey nKey = some sObj)
    (_hfb : planetHasResourceFallback c rKey meta.planetKey = true) :
    (∀ acc, coverStep c runMode rDisplay meta nKey acc rKey =
      if 0 < computeEffScore sObj runMode meta then
        (acc.1 + computeEffScore sObj runMode meta,
         acc.2 ++ [⟨(rDisplay.lookup rKey).getD rKey, "explicit",
                    computeEffScore sObj runMode meta⟩])
      else acc) ∧
    (¬ 0 < computeEffScore sObj runMode meta →
      ∀ remaining, nodeCoverage c runMode rDisplay meta nKey remaining =
        nodeCoverage c runMode rDisplay meta nKey (remaining.erase rKey)) := by
  have hstep : ∀ acc, coverStep c runMode rDisplay meta nKey acc rKey =
      if 0 < computeEffScore sObj runMode meta then
        (acc.1 + computeEffScore sObj runMode meta,
         acc.2 ++ [⟨(rDisplay.lookup rKey).getD rKey, "explicit",
                    computeEffScore sObj runMode meta⟩])
      else acc := by
    intro acc
    simp only [coverStep, hex]
  refine ⟨hstep, ?_⟩
  intro hneg remaining
  unfold nodeCoverage
  exact foldl_erase_of_fixed (coverStep c runMode rDisplay meta nKey) rKey
    (fun acc => by rw [hstep acc, if_neg hneg]) remaining (0, [])

/-- C3 witness: the theorem applied to a one-record catalog in which the planet
fallback set also contains the node's planet; the explicit score 5 is used. -/
theorem C3_explicit_precedence_witness :
    coverStep ⟨[("r", [("n", ⟨5, 0, true⟩)])], [("n", ⟨"N", "P", "p", "Survival", true, 0⟩)],
        [("r", ["p"])]⟩ RunMode.endless [] ⟨"N", "P", "p", "Survival", true, 0⟩ "n" (0, []) "r"
      = (5, [⟨"r", "explicit", 5⟩]) := by
  have h := (C3_explicit_precedence ⟨[("r", [("n", ⟨5, 0, true⟩)])],
      [("n", ⟨"N", "P", "p", "Survival", true, 0⟩)], [("r", ["p"])]⟩ RunMode.endless []
      ⟨"N", "P", "p", "Survival", true, 0⟩ "n" "r" ⟨5, 0, true⟩ (by decide) (by decide)).1
    (0, [])
  rw [h, if_pos (by norm_num [computeEffScore])]
  norm_num [computeEffScore]

/-- C4 counterexample: a resource whose explicit records exist but admit no node
eligible in endless mode yields a result entry with empty options and NO note,
contradicting the claim that such an entry is tagged with an explanatory note. -/
theorem C4_cex :
    planMaximizeEfficiency ⟨[("r", [("n", ⟨5, 3, false⟩)])],
        [("n", ⟨"N1", "Earth", "earth", "Survival", false, 3⟩)], []⟩ ["r"] RunMode.endless
      = [⟨"r", [], none⟩] := by
  have hn : norm "r" = "r" := by decide
  simp [planMaximizeEfficiency, effResultFor, effCandidates, nodeEligibleByRunMode, hn,
    pickTopOptions, List.lookup]

/-- C4 amended: planMaximizeEfficiency is total, producing one result entry per
requested resource; a resource with a missing or empty explicit map yields empty
options tagged with the note string; a resource whose explicit records exist but
admit no eligible node yields empty options with note absent (the rendering layer
supplies default text); in no case is an error raised. -/
theorem C4_no_data_yields_note (c : Catalog) (sel : List String) (runMode : RunMode)
    (r : String) :
    planMaximizeEfficiency c sel runMode = sel.map (effResultFor c runMode) ∧
    (c.EXPLICIT.lookup (norm r) = none →
      effResultFor c runMode r = ⟨r, [], some "No explicit data for this resource."⟩) ∧
    (∀ m, c.EXPLICIT.lookup (norm r) = some m →
      (m = [] →
        effResultFor c runMode r = ⟨r, [], some "No explicit data for this resource."⟩) ∧
      (m ≠ [] →
        (∀ p ∈ m, ∀ meta, c.NODE_META.lookup p.1 = some meta →
          nodeEligibleByRunMode meta runMode = false) →
        effResultFor c runMode r = ⟨r, [], none⟩)) := by
  refine ⟨rfl, ?_, ?_⟩
  · intro h
    simp only [effResultFor, h]
  · intro m hm
    constructor
    · intro hnil
      subst hnil
      simp only [effResultFor, hm]
      simp
    · intro hne hinelig
      have hcand : effCandidates c runMode m = [] := by
        rw [effCandidates, List.filterMap_eq_nil_iff]
        intro p hp
        cases hlk : c.NODE_META.lookup p.1 with
        | none => simp
        | some meta => simp [hinelig p hp meta hlk]
      simp only [effResultFor, hm]
      rw [if_neg hne, hcand, List.mergeSort_nil]
      simp [pickTopOptions]

/-- C4 witness: the amended theorem applied to the empty catalog and resource "x":
the result entry is empty options tagged with the note. -/
theorem C4_no_data_yields_note_witness :
    effResultFor ⟨[], [], []⟩ RunMode.quick "x"
      = ⟨"x", [], some "No explicit data for this resource."⟩ :=
  (C4_no_data_yields_note ⟨[], [], []⟩ [] RunMode.quick "x").2.1 rfl

lemma setAdd_nodup {k : String} {s : List String} (h : s.Nodup) : (setAdd k s).Nodup := by
  unfold setAdd
  split_ifs with hk
  · exact h
  · simpa [List.nodup_append] using ⟨h, hk⟩

lemma mem_setAdd {k a : String} {s : List String} : a ∈ setAdd k s ↔ a ∈ s ∨ a = k := by
  unfold setAdd
  split_ifs with hk
  · constructor
    · exact Or.inl
    · rintro (h | rfl) <;> [exact h; exact hk]
  · simp

lemma setOfList_aux (l : List String) :
    ∀ acc : List String, acc.Nodup →
      ((l.foldl (fun s k => setAdd k s) acc).Nodup ∧
       ∀ a, a ∈ l.foldl (fun s k => setAdd k s) acc ↔ a ∈ acc ∨ a ∈ l) := by
  induction l with
  | nil => intro acc h; simpa using h
  | cons x t ih =>
    intro acc h
    obtain ⟨h1, h2⟩ := ih (setAdd x acc) (setAdd_nodup h)
    refine ⟨h1, fun a => ?_⟩
    rw [List.foldl_cons] at *
    rw [h2 a, mem_setAdd]
    constructor
    · rintro ((ha | rfl) | ha)
      · exact Or.inl ha
      · exact Or.inr (List.mem_cons_self _ _)
      · exact Or.inr (List.mem_cons_of_mem _ ha)
    · rintro (ha | ha)
      · exact Or.inl (Or.inl ha)
      · rcases List.mem_cons.mp ha with rfl | ha'
        · exact Or.inl (Or.inr rfl)
        · exact Or.inr ha'

lemma setOfList_nodup (l : List String) : (setOfList l).Nodup :=
  (setOfList_aux l [] List.nodup_nil).1

lemma mem_setOfList {a : String} {l : List String} : a ∈ setOfList l ↔ a ∈ l := by
  have := (setOfList_aux l [] List.nodup_nil).2 a
  simpa [setOfList] using this

lemma delFold_nodup (covList : List CoveredEntry) :
    ∀ s : List String, s.Nodup →
      (covList.foldl (fun s cov => setDel (norm cov.resource) s) s).Nodup := by
  induction covList with
  | nil => intro s h; exact h
  | cons cov t ih =>
    intro s h
    rw [List.foldl_cons]
    exact ih _ (h.erase _)

lemma mem_delFold (covList : List CoveredEntry) :
    ∀ (s : List String), s.Nodup → ∀ k,
      (k ∈ covList.foldl (fun s cov => setDel (norm cov.resource) s) s ↔
        k ∈ s ∧ ∀ cov ∈ covList, norm cov.resource ≠ k) := by
  induction covList with
  | nil => intro s _ k; simp
  | cons cov t ih =>
    intro s hnd k
    rw [List.foldl_cons]
    rw [ih (setDel (norm cov.resource) s) (hnd.erase _) k]
    unfold setDel
    rw [hnd.mem_erase_iff]
    constructor
    · rintro ⟨⟨hne, hk⟩, hall⟩
      refine ⟨hk, ?_⟩
      intro c hc
      rcases List.mem_cons.mp hc with rfl | hc'
      · exact fun h => hne h.symm
      · exact hall c hc'
    · rintro ⟨hk, hall⟩
      refine ⟨⟨?_, hk⟩, fun c hc => hall c (List.mem_cons_of_mem _ hc)⟩
      intro h
      exact hall cov (List.mem_cons_self _ _) h.symm

lemma mem_mapSet {α : Type} {k : String} {v : α} {p : String × α} :
    ∀ {m : List (String × α)}, p ∈ mapSet k v m → p = (k, v) ∨ p ∈ m := by
  intro m
  induction m with
  | nil => intro h; simpa [mapSet] using h
  | cons q t ih =>
    intro h
    unfold mapSet at h
    split_ifs at h with hq
    · rcases List.mem_cons.mp h with rfl | h'
      · exact Or.inl rfl
      · exact Or.inr (List.mem_cons_of_mem _ h')
    · rcases List.mem_cons.mp h with rfl | h'
      · exact Or.inr (List.mem_cons_self _ _)
      · rcases ih h' with h'' | h''
        · exact Or.inl h''
        · exact Or.inr (List.mem_cons_of_mem _ h'')

lemma lookup_mem {α : Type} {k : String} {v : α} :
    ∀ {m : List (String × α)}, m.lookup k = some v → (k, v) ∈ m := by
  intro m
  induction m with
  | nil => intro h; simp [List.lookup] at h
  | cons q t ih =>
    intro h
    cases q with
    | mk k' v' =>
      rw [List.lookup_cons] at h
      cases hbeq : (k == k')
      · simp only [hbeq] at h
        exact List.mem_cons_of_mem _ (ih h)
      · simp only [hbeq] at h
        injection h with h
        have hk : k = k' := by simpa using hbeq
        subst hk
        subst h
        exact List.mem_cons_self _ _

lemma lookup_mapSet_self {α : Type} (k : String) (v : α) :
    ∀ m : List (String × α), (mapSet k v m).lookup k = some v := by
  intro m
  induction m with
  | nil => simp [mapSet, List.lookup_cons]
  | cons q t ih =>
    cases q with
    | mk k' v' =>
      unfold mapSet
      split_ifs with hq
      · rw [List.lookup_cons]
        simp
      · rw [List.lookup_cons]
        have hne : (k == k') = false := beq_eq_false_iff_ne.mpr (fun h => hq h.symm)
        simp [hne, ih]

lemma lookup_mapSet_ne {α : Type} {a k : String} (v : α) (h : a ≠ k) :
    ∀ m : List (String × α), (mapSet k v m).lookup a = m.lookup a := by
  intro m
  induction m with
  | nil =>
    have hne : (a == k) = false := beq_eq_false_iff_ne.mpr h
    simp [mapSet, List.lookup_cons, hne]
  | cons q t ih =>
    cases q with
    | mk k' v' =>
      unfold mapSet
      split_ifs with hq
      · subst hq
        have hne : (a == k') = false := beq_eq_false_iff_ne.mpr h
        rw [List.lookup_cons, List.lookup_cons]
        simp [hne]
      · rw [List.lookup_cons, List.lookup_cons]
        cases hbeq : (a == k') <;> simp [hbeq, ih]

lemma buildDisplay_entry_norm (sel : List String) :
    ∀ p ∈ buildDisplay sel, p.1 = norm p.2 := by
  unfold buildDisplay
  suffices h : ∀ acc : List (String × String), (∀ p ∈ acc, p.1 = norm p.2) →
      ∀ p ∈ sel.foldl (fun m r => mapSet (norm r) r m) acc, p.1 = norm p.2 by
    exact h [] (by simp)
  induction sel with
  | nil => intro acc hacc p hp; exact hacc p hp
  | cons r t ih =>
    intro acc hacc p hp
    rw [List.foldl_cons] at hp
    refine ih (mapSet (norm r) r acc) ?_ p hp
    intro q hq
    rcases mem_mapSet hq with rfl | hq'
    · rfl
    · exact hacc q hq'

lemma buildDisplay_lookup_isSome (sel : List String) :
    ∀ k ∈ sel.map norm, ((buildDisplay sel).lookup k).isSome = true := by
  unfold buildDisplay
  suffices h : ∀ acc : List (String × String), ∀ k,
      ((acc.lookup k).isSome = true ∨ k ∈ sel.map norm) →
      (((sel.foldl (fun m r => mapSet (norm r) r m) acc).lookup k).isSome = true) by
    intro k hk
    exact h [] k (Or.inr hk)
  induction sel with
  | nil =>
    intro acc k hk
    rcases hk with hk | hk
    · exact hk
    · simp at hk
  | cons r t ih =>
    intro acc k hk
    rw [List.foldl_cons]
    by_cases hkr : k = norm r
    · subst hkr
      refine ih _ (norm r) (Or.inl ?_)
      rw [lookup_mapSet_self]
      rfl
    · refine ih _ k ?_
      rw [lookup_mapSet_ne r hkr]
      rcases hk with hk | hk
      · exact Or.inl hk
      · rcases List.mem_map.mp hk with ⟨a, ha, hna⟩
        rcases List.mem_cons.mp ha with rfl | ha'
        · exact absurd hna.symm hkr
        · exact Or.inr (List.mem_map.mpr ⟨a, ha', hna⟩)

lemma buildDisplay_norm_getD (sel : List String) (k : String) (hk : k ∈ sel.map norm) :
    norm (((buildDisplay sel).lookup k).getD k) = k := by
  have hsome := buildDisplay_lookup_isSome sel k hk
  cases hlk : (buildDisplay sel).lookup k with
  | none => rw [hlk] at hsome; simp at hsome
  | some v =>
    have hmem := lookup_mem hlk
    have := buildDisplay_entry_norm sel (k, v) hmem
    simpa [hlk] using this.symm

lemma stopsLoop_zero (c : Catalog) (runMode : RunMode) (rDisplay : List (String × String))
    (candidates : List String) (remaining : List String) :
    stopsLoop c runMode rDisplay candidates 0 remaining = ([], remaining) := rfl

lemma stopsLoop_succ_nil (c : Catalog) (runMode : RunMode) (rDisplay : List (String × String))
    (candidates : List String) (fuel : ℕ) :
    stopsLoop c runMode rDisplay candidates (fuel + 1) [] = ([], []) := by
  simp [stopsLoop]

lemma stopsLoop_succ_top_nil (c : Catalog) (runMode : RunMode)
    (rDisplay : List (String × String)) (candidates : List String) (fuel : ℕ)
    (remaining : List String) (hrem : remaining ≠ [])
    (htop : pickTopOptions (fun x => x.score)
        ((stopScored c runMode rDisplay candidates remaining).mergeSort
          (fun a b => decide (b.score ≤ a.score))) 3 = []) :
    stopsLoop c runMode rDisplay candidates (fuel + 1) remaining = ([], remaining) := by
  simp [stopsLoop, hrem, htop]

lemma stopsLoop_succ_cons (c : Catalog) (runMode : RunMode)
    (rDisplay : List (String × String)) (candidates : List String) (fuel : ℕ)
    (remaining : List String) (best : StopCandidate) (t : List StopCandidate)
    (hrem : remaining ≠ [])
    (htop : pickTopOptions (fun x => x.score)
        ((stopScored c runMode rDisplay candidates remaining).mergeSort
          (fun a b => decide (b.score ≤ a.score))) 3 = best :: t) :
    stopsLoop c runMode rDisplay candidates (fuel + 1) remaining =
      (⟨best :: t⟩ :: (stopsLoop c runMode rDisplay candidates fuel
          (best.covered.foldl (fun s cov => setDel (norm cov.resource) s) remaining)).1,
       (stopsLoop c runMode rDisplay candidates fuel
          (best.covered.foldl (fun s cov => setDel (norm cov.resource) s) remaining)).2) := by
  simp [stopsLoop, hrem, htop]

lemma stopsLoop_spec (c : Catalog) (runMode : RunMode) (rDisplay : List (String × String))
    (candidates : List String) :
    ∀ (fuel : ℕ) (remaining : List String), remaining.Nodup →
      (stopsLoop c runMode rDisplay candidates fuel remaining).1.length ≤ fuel ∧
      (stopsLoop c runMode rDisplay candidates fuel remaining).2.Nodup ∧
      (∀ k, k ∈ (stopsLoop c runMode rDisplay candidates fuel remaining).2 ↔
        (k ∈ remaining ∧
         ∀ step ∈ (stopsLoop c runMode rDisplay candidates fuel remaining).1,
           ∀ best, step.options.head? = some best →
             ∀ cov ∈ best.covered, norm cov.resource ≠ k)) := by
  intro fuel
  induction fuel with
  | zero =>
    intro remaining hnd
    simp only [stopsLoop_zero]
    refine ⟨by simp, hnd, ?_⟩
    intro k
    simp
  | succ fuel ih =>
    intro remaining hnd
    by_cases hrem : remaining = []
    · subst hrem
      simp only [stopsLoop_succ_nil]
      refine ⟨by simp, List.nodup_nil, ?_⟩
      intro k
      simp
    · cases htop : pickTopOptions (fun x => x.score)
          ((stopScored c runMode rDisplay candidates remaining).mergeSort
            (fun a b => decide (b.score ≤ a.score))) 3 with
      | nil =>
        simp only [stopsLoop_succ_top_nil c runMode rDisplay candidates fuel remaining
          hrem htop]
        refine ⟨by simp, hnd, ?_⟩
        intro k
        simp
      | cons best t =>
        simp only [stopsLoop_succ_cons c runMode rDisplay candidates fuel remaining best t
          hrem htop]
        have hndR : (best.covered.foldl (fun s cov => setDel (norm cov.resource) s)
            remaining).Nodup := delFold_nodup best.covered remaining hnd
        obtain ⟨ihlen, ihnd, ihmem⟩ :=
          ih (best.covered.foldl (fun s cov => setDel (norm cov.resource) s) remaining) hndR
        refine ⟨?_, ihnd, ?_⟩
        · simp only [List.length_cons]
          omega
        · intro k
          rw [ihmem k, mem_delFold best.covered remaining hnd k]
          constructor
          · rintro ⟨⟨hkrem, hbest⟩, hrest⟩
            refine ⟨hkrem, ?_⟩
            intro step hstep best' hbest' cov hcov
            rcases List.mem_cons.mp hstep with rfl | hstep'
            · have hbb : best = best' := by simpa using hbest'
              subst hbb
              exact hbest cov hcov
            · exact hrest step hstep' best' hbest' cov hcov
          · rintro ⟨hkrem, hall⟩
            refine ⟨⟨hkrem, ?_⟩, ?_⟩
            · intro cov hcov
              exact hall ⟨best :: t⟩ (List.mem_cons_self _ _) best rfl cov hcov
            · intro step hstep best' hbest' cov hcov
              exact hall step (List.mem_cons_of_mem _ hstep) best' hbest' cov hcov

/-- C5: planMinimizeStops terminates (it is a total function) with a route of at
most 6 stops, and a requested resource key is reported missing exactly when no
selected step's primary (first) option covers it. -/
theorem C5_stop_bound_and_missing (c : Catalog) (sel : List String) (runMode : RunMode) :
    (planMinimizeStops c sel runMode).route.length ≤ 6 ∧
    (∀ k, k ∈ (planMinimizeStops c sel runMode).missing.map norm ↔
      (k ∈ sel.map norm ∧
       ∀ step ∈ (planMinimizeStops c sel runMode).route,
         ∀ best, step.options.head? = some best →
           ∀ cov ∈ best.covered, norm cov.resource ≠ k)) := by
  have hplan : planMinimizeStops c sel runMode =
      ⟨(stopsLoop c runMode (buildDisplay sel)
          ((candidateNodesOf c (setOfList (sel.map norm))).filter fun nKey =>
            match c.NODE_META.lookup nKey with
            | none => false
            | some meta => nodeEligibleByRunMode meta runMode)
          6 (setOfList (sel.map norm))).1,
       ((stopsLoop c runMode (buildDisplay sel)
          ((candidateNodesOf c (setOfList (sel.map norm))).filter fun nKey =>
            match c.NODE_META.lookup nKey with
            | none => false
            | some meta => nodeEligibleByRunMode meta runMode)
          6 (setOfList (sel.map norm))).2.map
        (fun rKey => ((buildDisplay sel).lookup rKey).getD rKey))⟩ := rfl
  obtain ⟨hlen, hndf, hmem⟩ := stopsLoop_spec c runMode (buildDisplay sel)
    ((candidateNodesOf c (setOfList (sel.map norm))).filter fun nKey =>
      match c.NODE_META.lookup nKey with
      | none => false
      | some meta => nodeEligibleByRunMode meta runMode)
    6 (setOfList (sel.map norm)) (setOfList_nodup _)
  rw [hplan]
  refine ⟨hlen, ?_⟩
  intro k
  have hmapmem : k ∈ ((stopsLoop c runMode (buildDisplay sel)
        ((candidateNodesOf c (setOfList (sel.map norm))).filter fun nKey =>
          match c.NODE_META.lookup nKey with
          | none => false
          | some meta => nodeEligibleByRunMode meta runMode)
        6 (setOfList (sel.map norm))).2.map
      (fun rKey => ((buildDisplay sel).lookup rKey).getD rKey)).map norm ↔
      k ∈ (stopsLoop c runMode (buildDisplay sel)
        ((candidateNodesOf c (setOfList (sel.map norm))).filter fun nKey =>
          match c.NODE_META.lookup nKey with
          | none => false
          | some meta => nodeEligibleByRunMode meta runMode)
        6 (setOfList (sel.map norm))).2 := by
    rw [List.map_map]
    constructor
    · intro hk
      obtain ⟨a, ha, hfa⟩ := List.mem_map.mp hk
      have h2 : a ∈ sel.map norm := mem_setOfList.mp ((hmem a).mp ha).1
      have h3 : norm (((buildDisplay sel).lookup a).getD a) = a :=
        buildDisplay_norm_getD sel a h2
      simp only [Function.comp] at hfa
      rw [h3] at hfa
      rwa [← hfa]
    · intro hk
      have h2 : k ∈ sel.map norm := mem_setOfList.mp ((hmem k).mp hk).1
      exact List.mem_map.mpr ⟨k, hk, by
        simp only [Function.comp]
        exact buildDisplay_norm_getD sel k h2⟩
  rw [hmapmem, hmem k, mem_setOfList]

lemma effResultFor_some {c : Catalog} {runMode : RunMode} {r : String}
    {m : List (String × ScoreObj)} (hm : c.EXPLICIT.lookup (norm r) = some m)
    (hne : m ≠ []) :
    effResultFor c runMode r = ⟨r, (pickTopOptions (fun e => e.score)
      ((effCandidates c runMode m).mergeSort (fun a b => decide (b.score ≤ a.score))) 3).map
        (fun o => ⟨o.nodeKey, o.score, c.NODE_META.lookup o.nodeKey⟩), none⟩ := by
  simp only [effResultFor, hm]
  rw [if_neg hne]

lemma effCandidates_endless {c : Catalog} {m : List (String × ScoreObj)} {e : ScoredEntry}
    (he : e ∈ effCandidates c RunMode.endless m) :
    ∃ meta, c.NODE_META.lookup e.nodeKey = some meta ∧ meta.isEndless = true := by
  rw [effCandidates, List.mem_filterMap] at he
  obtain ⟨p, hp, hfp⟩ := he
  cases hlk : c.NODE_META.lookup p.1 with
  | none => rw [hlk] at hfp; simp at hfp
  | some meta =>
    simp only [hlk] at hfp
    split_ifs at hfp with helig
    injection hfp with hfp
    subst hfp
    exact ⟨meta, hlk, by simpa [nodeEligibleByRunMode] using helig⟩

lemma effResultFor_endless (c : Catalog) (r : String) (opt : EffOption)
    (hopt : opt ∈ (effResultFor c RunMode.endless r).options) :
    ∃ meta, opt.meta = some meta ∧ meta.isEndless = true := by
  cases hm : c.EXPLICIT.lookup (norm r) with
  | none =>
    have hres : effResultFor c RunMode.endless r
        = ⟨r, [], some "No explicit data for this resource."⟩ := by
      simp only [effResultFor, hm]
    rw [hres] at hopt
    simp at hopt
  | some m =>
    by_cases hnil : m = []
    · have hres : effResultFor c RunMode.endless r
          = ⟨r, [], some "No explicit data for this resource."⟩ := by
        subst hnil
        simp only [effResultFor, hm]
        simp
      rw [hres] at hopt
      simp at hopt
    · rw [effResultFor_some hm hnil] at hopt
      simp only [List.mem_map] at hopt
      obtain ⟨o, ho, rfl⟩ := hopt
      have ho2 : o ∈ (effCandidates c RunMode.endless m).mergeSort
          (fun a b => decide (b.score ≤ a.score)) := pickTopOptions_mem ho
      rw [List.mem_mergeSort] at ho2
      obtain ⟨meta, hlk, hend⟩ := effCandidates_endless ho2
      exact ⟨meta, by simp [hlk], hend⟩

lemma stopScored_endless {c : Catalog} {rDisplay : List (String × String)}
    {candidates remaining : List String} {x : StopCandidate}
    (hcand : ∀ nKey ∈ candidates, ∀ meta, c.NODE_META.lookup nKey = some meta →
      meta.isEndless = true)
    (hx : x ∈ stopScored c RunMode.endless rDisplay candidates remaining) :
    x.meta.isEndless = true := by
  rw [stopScored, List.mem_filterMap] at hx
  obtain ⟨nKey, hn, hf⟩ := hx
  cases hlk : c.NODE_META.lookup nKey with
  | none => rw [hlk] at hf; simp at hf
  | some meta =>
    simp only [hlk] at hf
    split_ifs at hf with hc
    injection hf with hf
    subst hf
    exact hcand nKey hn meta hlk

lemma stopsLoop_endless (c : Catalog) (rDisplay : List (String × String))
    (candidates : List String)
    (hcand : ∀ nKey ∈ candidates, ∀ meta, c.NODE_META.lookup nKey = some meta →
      meta.isEndless = true) :
    ∀ (fuel : ℕ) (remaining : List String),
      ∀ step ∈ (stopsLoop c RunMode.endless rDisplay candidates fuel remaining).1,
        ∀ opt ∈ step.options, opt.meta.isEndless = true := by
  intro fuel
  induction fuel with
  | zero =>
    intro remaining step hstep
    rw [stopsLoop_zero] at hstep
    simp at hstep
  | succ fuel ih =>
    intro remaining step hstep opt hopt
    by_cases hrem : remaining = []
    · subst hrem
      rw [stopsLoop_succ_nil] at hstep
      simp at hstep
    · cases htop : pickTopOptions (fun x => x.score)
          ((stopScored c RunMode.endless rDisplay candidates remaining).mergeSort
            (fun a b => decide (b.score ≤ a.score))) 3 with
      | nil =>
        rw [stopsLoop_succ_top_nil c RunMode.endless rDisplay candidates fuel remaining
          hrem htop] at hstep
        simp at hstep
      | cons best t =>
        rw [stopsLoop_succ_cons c RunMode.endless rDisplay candidates fuel remaining best t
          hrem htop] at hstep
        rcases List.mem_cons.mp hstep with rfl | hstep'
        · have h1 : opt ∈ pickTopOptions (fun x => x.score)
              ((stopScored c RunMode.endless rDisplay candidates remaining).mergeSort
                (fun a b => decide (b.score ≤ a.score))) 3 := htop ▸ hopt
          have h2 := pickTopOptions_mem h1
          rw [List.mem_mergeSort] at h2
          exact stopScored_endless hcand h2
        · exact ih _ step hstep' opt hopt

/-- C6: in endless run mode, every node option appearing in the output of either
planner carries metadata with isEndless = true: the eligibility filter keeps
non-endless nodes out of candidate scoring, so none can reach the output. -/
theorem C6_endless_only (c : Catalog) (sel : List String) :
    (∀ res ∈ planMaximizeEfficiency c sel RunMode.endless, ∀ opt ∈ res.options,
      ∃ meta, opt.meta = some meta ∧ meta.isEndless = true) ∧
    (∀ step ∈ (planMinimizeStops c sel RunMode.endless).route, ∀ opt ∈ step.options,
      opt.meta.isEndless = true) := by
  constructor
  · intro res hres opt hopt
    simp only [planMaximizeEfficiency] at hres
    obtain ⟨r, _, rfl⟩ := List.mem_map.mp hres
    exact effResultFor_endless c r opt hopt
  · intro step hstep opt hopt
    have hcand : ∀ nKey ∈ ((candidateNodesOf c (setOfList (sel.map norm))).filter
        fun nKey =>
          match c.NODE_META.lookup nKey with
          | none => false
          | some meta => nodeEligibleByRunMode meta RunMode.endless),
        ∀ meta, c.NODE_META.lookup nKey = some meta → meta.isEndless = true := by
      intro nKey hn meta hm
      have hf := (List.mem_filter.mp hn).2
      rw [hm] at hf
      simpa [nodeEligibleByRunMode] using hf
    have hplan : (planMinimizeStops c sel RunMode.endless).route =
        (stopsLoop c RunMode.endless (buildDisplay sel)
          ((candidateNodesOf c (setOfList (sel.map norm))).filter fun nKey =>
            match c.NODE_META.lookup nKey with
            | none => false
            | some meta => nodeEligibleByRunMode meta RunMode.endless)
          6 (setOfList (sel.map norm))).1 := rfl
    rw [hplan] at hstep
    exact stopsLoop_endless c (buildDisplay sel) _ hcand 6 _ step hstep opt hopt

/-- C6 witness: the theorem applied to a one-node endless catalog: the single
efficiency option carries endless metadata. -/
theorem C6_endless_only_witness :
    ∃ meta, (some (⟨"N", "E", "e", "Survival", true, (3:ℚ)⟩ : NodeMeta) : Option NodeMeta)
        = some meta ∧ meta.isEndless = true := by
  have hcond : ((5:ℚ)) * (9/10) ≤ 5 := by norm_num
  have hout : planMaximizeEfficiency ⟨[("r", [("n", ⟨5, 3, true⟩)])],
      [("n", ⟨"N", "E", "e", "Survival", true, 3⟩)], []⟩ ["r"] RunMode.endless
      = [⟨"r", [⟨"n", 5, some ⟨"N", "E", "e", "Survival", true, 3⟩⟩], none⟩] := by
    simp [planMaximizeEfficiency, effResultFor, effCandidates, computeEffScore,
      nodeEligibleByRunMode, pickTopOptions, pickLoop,
      show norm "r" = "r" from by decide, List.mergeSort_singleton, hcond]
  refine (C6_endless_only ⟨[("r", [("n", ⟨5, 3, true⟩)])],
      [("n", ⟨"N", "E", "e", "Survival", true, 3⟩)], []⟩ ["r"]).1
    ⟨"r", [⟨"n", 5, some ⟨"N", "E", "e", "Survival", true, 3⟩⟩], none⟩
    (by rw [hout]; exact List.mem_cons_self _ _)
    ⟨"n", 5, some ⟨"N", "E", "e", "Survival", true, 3⟩⟩ (by simp)

/-- C5 witness: the theorem applied to the empty catalog with the single request
"a": the route is empty (within the bound) and "a" is reported missing. -/
theorem C5_stop_bound_and_missing_witness :
    "a" ∈ (planMinimizeStops ⟨[], [], []⟩ ["a"] RunMode.quick).missing.map norm := by
  have hroute : (planMinimizeStops ⟨[], [], []⟩ ["a"] RunMode.quick).route = [] := by
    simp [planMinimizeStops, stopsLoop, stopScored, candidateNodesOf, setOfList, setAdd,
      pickTopOptions, List.lookup, List.mergeSort_nil]
  refine ((C5_stop_bound_and_missing ⟨[], [], []⟩ ["a"] RunMode.quick).2 "a").mpr ⟨?_, ?_⟩
  · exact List.mem_map.mpr ⟨"a", by simp, by decide⟩
  · rw [hroute]
    simp
